import Mathlib

/-
Verification of the macOS bundle-builder `conda_env_to_app.py`.

Shallow embedding of the `MacAppBuilder` class: paths are lists of
components, the filesystem is an association list from paths to entries,
Python's `str.replace` is modelled on `List Char`, machine effects that the
program treats as opaque collaborators (the MIME probe, `codesign`,
`dmgbuild`, `pathlib` glob matching, per-file I/O failures) are oracle
parameters.  Floating point `1.3` is idealised as the exact rational 13/10.
-/

namespace CondaApp

/-! ## Python `str.replace` on `List Char`

`content.replace(search, replace)` (line 124 of `conda_env_to_app.py`):
scan left to right, replace each leftmost non-overlapping occurrence of
`s` by `r`.  For empty `s`, Python inserts `r` before every character and
at the end; that case never arises in the program but is modelled
faithfully. -/

def pyReplace (s r : List Char) : List Char → List Char
  | [] => if s = [] then r else []
  | c :: t =>
    if s = [] then r ++ c :: pyReplace s r t
    else if s <+: c :: t then r ++ pyReplace s r (t.drop (s.length - 1))
    else c :: pyReplace s r t
termination_by t => t.length
decreasing_by
  all_goals simp only [List.length_drop, List.length_cons]
  all_goals omega

/-! ## Disk-image size (create_dmg, lines 339-340)

`dmg_size = str(int(app_size_bytes * 1.3 / 1024 / 1024)) + 'M'`
with 1.3 idealised as the exact rational 13/10 and `int` as truncation
toward zero (= floor on the nonnegative values that arise here). -/

def dmg_size_mb (app_size_bytes : Nat) : Nat :=
  (Int.floor ((app_size_bytes : ℚ) * (13 / 10) / 1024 / 1024)).toNat

def dmg_size_str (app_size_bytes : Nat) : String :=
  toString (dmg_size_mb app_size_bytes) ++ "M"

/-- The spec's formula, written from its words: `ceil(total_bundle_bytes *
1.3 / 1,048,576)` megabytes.  Stated for comparison with `dmg_size_mb`. -/
def spec_dmg_size_mb (total_bundle_bytes : Nat) : Nat :=
  (Int.ceil ((total_bundle_bytes : ℚ) * (13 / 10) / 1048576)).toNat

/-! ## Paths and the filesystem model -/

/-- A filesystem path, as a list of components (`os.path.join` with `/`). -/
abbrev FPath := List String

/-- A regular file.  `isTextFile` records the outcome of the external
`file --mime-type` probe (`text/...` or not); `procFails` records whether
per-file processing of this file raises inside the `try` block of
`find_and_replace` (an external I/O oracle). -/
structure FileData where
  content : List Char
  isExec : Bool
  isTextFile : Bool
  procFails : Bool
deriving DecidableEq, Repr, Inhabited

/-- A value inside an `Info.plist` dictionary (`plistlib`). -/
inductive PVal where
  | str (s : String)
  | bool (b : Bool)
  | int (n : Int)
deriving DecidableEq, Repr

inductive Entry where
  | dir
  | file (fd : FileData)
  /-- `plistlib.dump` output, kept structured (deserialised form). -/
  | plistFile (pl : List (String × PVal))
deriving DecidableEq, Repr, Inhabited

/-- The filesystem: an association list from paths to entries (first match
wins; `FS.set` keeps keys unique). -/
abbrev FS := List (FPath × Entry)

def FS.get (fs : FS) (p : FPath) : Option Entry :=
  match fs with
  | [] => none
  | pe :: rest => if pe.1 = p then some pe.2 else FS.get rest p

/-- Key-based filtering: keep the entries whose path satisfies `keep`. -/
def FS.keepIf (fs : FS) (keep : FPath → Bool) : FS :=
  fs.filter (fun pe => keep pe.1)

def FS.set (fs : FS) (p : FPath) (e : Entry) : FS :=
  (p, e) :: fs.keepIf (fun q => ¬ q = p)

/-- `os.remove` / `Path.unlink`: drop the entry at exactly `p`. -/
def FS.remove (fs : FS) (p : FPath) : FS :=
  fs.keepIf (fun q => ¬ q = p)

/-- `shutil.rmtree`: drop `p` and everything below it. -/
def FS.removeTree (fs : FS) (p : FPath) : FS :=
  fs.keepIf (fun q => ¬ p <+: q)

/-- Well-formedness of a modelled filesystem, as every real directory tree
satisfies it: an entry with strict descendants is a directory. -/
def FS.wellFormed (fs : FS) : Prop :=
  ∀ pe ∈ fs, ∀ qe ∈ fs, qe.1 <+: pe.1 → qe.1 ≠ pe.1 → qe.2 = Entry.dir

/-! ## Configuration (the settings-module globals harvested by load_config) -/

/-- A configuration value.  `py` is an opaque Python value carried only for
its `str()` rendering (used by the cosmetic `DMG_*` settings). -/
inductive CVal where
  | str (s : String)
  | strList (l : List String)
  | bool (b : Bool)
  | nat (n : Nat)
  | plistDict (pl : List (String × PVal))
  | py (rendering : String)
deriving DecidableEq, Repr

/-- The configuration dictionary `self.config`. -/
abbrev Config := List (String × CVal)

def Config.find? (cfg : Config) (k : String) : Option CVal :=
  match cfg with
  | [] => none
  | kv :: rest => if kv.1 = k then some kv.2 else Config.find? rest k

/-- `k in self.config`. -/
def Config.hasKey (cfg : Config) (k : String) : Bool :=
  (cfg.find? k).isSome

/-- `self.config[k]`, assuming (as the program does) a string value. -/
def Config.getStr (cfg : Config) (k : String) : String :=
  match cfg.find? k with
  | some (.str s) => s
  | _ => ""

/-- `self.config.get(k, d)` for string values. -/
def Config.getStrD (cfg : Config) (k d : String) : String :=
  match cfg.find? k with
  | some (.str s) => s
  | _ => d

/-- `self.config.get(k, [])` for list values (CONDA_EXCLUDE_FILES,
CONDA_FOLDERS). -/
def Config.getStrList (cfg : Config) (k : String) : List String :=
  match cfg.find? k with
  | some (.strList l) => l
  | _ => []

/-- `self.config.get(k, d)` for boolean values (CODE_SIGN). -/
def Config.getBoolD (cfg : Config) (k : String) (d : Bool) : Bool :=
  match cfg.find? k with
  | some (.bool b) => b
  | _ => d

/-- Replace (or add) a key, as Python dict assignment. -/
def Config.setVal (cfg : Config) (k : String) (v : CVal) : Config :=
  if cfg.hasKey k then
    cfg.map (fun kv => if kv.1 = k then (k, v) else kv)
  else cfg ++ [(k, v)]

/-- `os.path.expanduser`: replace a leading `~` with the home directory
(`~user` forms are left alone, as when the user is unknown). -/
def expanduser (home s : String) : String :=
  match s.toList with
  | [] => s
  | c :: rest =>
    if c = '~' then
      match rest with
      | [] => home
      | c2 :: _ => if c2 = '/' then home ++ String.mk rest else s
    else s

/-- Split a character list at every occurrence of `sep` (the semantics of
`String.splitOn` for a one-character separator, implemented by structural
recursion so that the kernel can evaluate it). -/
def splitChars (sep : Char) : List Char → List (List Char)
  | [] => [[]]
  | c :: t =>
    match splitChars sep t with
    | [] => [[]]
    | g :: gs => if c = sep then [] :: g :: gs else (c :: g) :: gs

/-- Split a string path on `/` into components (`os.path.join` inverse). -/
def splitPath (s : String) : FPath :=
  (splitChars '/' s.toList).map (fun l => String.mk l)

def joinPath (p : FPath) : String :=
  String.intercalate "/" p

/-- `os.path.basename`: everything after the last `/`. -/
def basename (s : String) : String :=
  (splitPath s).getLastD ""

/-! ## validate_config (lines 63-89) -/

def required_vars : List String :=
  ["APP_NAME", "OUTPUT_FOLDER", "VERSION",
   "AUTHOR", "CONDA_ENV_PATH", "ENTRY_SCRIPT", "IDENTIFIER"]

inductive ValidateResult where
  /-- `sys.exit(code)` after `logger.error(msg)`. -/
  | exit (code : Nat) (msg : String)
  /-- Validation passed; the config with user paths expanded. -/
  | ok (cfg : Config)
deriving DecidableEq, Repr

/-- `MacAppBuilder.validate_config`: collect all missing required keys and
abort with one aggregated message; otherwise tilde-expand CONDA_ENV_PATH
and OUTPUT_FOLDER and check that the conda environment exists.  Reads the
filesystem (the existence check) but never writes it.  -/
def validate_config (home : String) (cfg : Config) (fs : FS) : ValidateResult :=
  let missing := required_vars.filter (fun v => ¬ cfg.hasKey v)
  if missing ≠ [] then
    .exit 1 ("Missing required configuration variables: " ++
      String.intercalate ", " missing)
  else
    let cfg1 := cfg.setVal "CONDA_ENV_PATH"
      (.str (expanduser home (cfg.getStr "CONDA_ENV_PATH")))
    let cfg2 := cfg1.setVal "OUTPUT_FOLDER"
      (.str (expanduser home (cfg1.getStr "OUTPUT_FOLDER")))
    if (fs.get (splitPath (cfg2.getStr "CONDA_ENV_PATH"))).isSome then .ok cfg2
    else .exit 1 ("Conda environment not found at: " ++
      cfg2.getStr "CONDA_ENV_PATH")

/-! ## The builder and its derived paths (lines 84-89) -/

/-- `MacAppBuilder` after `__init__`: `config` is the validated
configuration (paths already expanded), `home` the user's home directory,
`year` the value of `date.today().year` used for the copyright notice. -/
structure MacAppBuilder where
  config : Config
  home : String
  year : Nat

namespace MacAppBuilder

/-- `self.app_file = os.path.join(OUTPUT_FOLDER, APP_NAME + '.app')`. -/
def app_file (b : MacAppBuilder) : FPath :=
  splitPath (b.config.getStr "OUTPUT_FOLDER") ++
    [b.config.getStr "APP_NAME" ++ ".app"]

/-- `self.macos_dir = os.path.join(app_file, 'Contents/MacOS')`. -/
def macos_dir (b : MacAppBuilder) : FPath :=
  b.app_file ++ ["Contents", "MacOS"]

/-- `self.resource_dir = os.path.join(app_file, 'Contents/Resources')`. -/
def resource_dir (b : MacAppBuilder) : FPath :=
  b.app_file ++ ["Contents", "Resources"]

/-- `self.app_script = os.path.join(macos_dir, APP_NAME)`. -/
def app_script (b : MacAppBuilder) : FPath :=
  b.macos_dir ++ [b.config.getStr "APP_NAME"]

end MacAppBuilder

/-! ## Pipeline stages (create_app_structure .. code_sign) -/

/-- `os.makedirs(p, exist_ok=True)`: create every missing ancestor of `p`
(and `p` itself) as a directory. -/
def FS.mkdirs (fs : FS) (p : FPath) : FS :=
  (List.range p.length).foldl (fun acc i =>
    let q := p.take (i + 1)
    if (acc.get q).isSome then acc else acc.set q .dir) fs

/-- `MacAppBuilder.create_app_structure` (lines 168-172). -/
def MacAppBuilder.create_app_structure (b : MacAppBuilder) (fs : FS) : FS :=
  (fs.mkdirs b.macos_dir).mkdirs b.resource_dir

/-- The entries at or below `src`, with their paths made relative. -/
def FS.subtree (fs : FS) (src : FPath) : List (FPath × Entry) :=
  fs.filterMap (fun pe =>
    if src <+: pe.1 then some (pe.1.drop src.length, pe.2) else none)

/-- `shutil.copytree(src, dst, symlinks=True, dirs_exist_ok=True)`:
replicate the subtree of `src` below `dst` (merging into what exists). -/
def FS.copytree (fs : FS) (src dst : FPath) : FS :=
  (fs.subtree src).foldl (fun acc re => acc.set (dst ++ re.1) re.2) fs

/-- `MacAppBuilder.copy_conda_env` (lines 202-216). -/
def MacAppBuilder.copy_conda_env (b : MacAppBuilder) (fs : FS) : FS :=
  let src := splitPath (b.config.getStr "CONDA_ENV_PATH")
  if b.config.hasKey "CONDA_FOLDERS" then
    (b.config.getStrList "CONDA_FOLDERS").foldl (fun acc folder =>
      let s := src ++ [folder]
      if (acc.get s).isSome then acc.copytree s (b.resource_dir ++ [folder])
      else acc) fs
  else fs.copytree src b.resource_dir

/-- `MacAppBuilder.copy_icon` (lines 260-272).  Returns the new filesystem
and the warnings logged. -/
def MacAppBuilder.copy_icon (b : MacAppBuilder) (fs : FS) : FS × List String :=
  match b.config.find? "ICON_PATH" with
  | none => (fs, [])
  | some v =>
    let raw := match v with | .str s => s | _ => ""
    let icon_path := expanduser b.home raw
    match fs.get (splitPath icon_path) with
    | none => (fs, ["Icon file not found: " ++ icon_path])
    | some e => (fs.set (b.resource_dir ++ [basename icon_path]) e, [])

/-- Python dict assignment `pl[k] = v`. -/
def plistSet (pl : List (String × PVal)) (k : String) (v : PVal) :
    List (String × PVal) :=
  if pl.any (fun kv => kv.1 = k) then
    pl.map (fun kv => if kv.1 = k then (k, v) else kv)
  else pl ++ [(k, v)]

/-- Python `pl.update(adds)`. -/
def plistUpdate (pl adds : List (String × PVal)) : List (String × PVal) :=
  adds.foldl (fun acc kv => plistSet acc kv.1 kv.2) pl

def plistFind? (pl : List (String × PVal)) (k : String) : Option PVal :=
  match pl with
  | [] => none
  | kv :: rest => if kv.1 = k then some kv.2 else plistFind? rest k

/-- The `info_plist` dictionary built by `create_plist` (lines 278-306). -/
def MacAppBuilder.info_plist (b : MacAppBuilder) : List (String × PVal) :=
  let name := b.config.getStr "APP_NAME"
  let version := b.config.getStr "VERSION"
  let base : List (String × PVal) := [
    ("CFBundleDevelopmentRegion", .str "en"),
    ("CFBundleExecutable", .str name),
    ("CFBundleIdentifier", .str (b.config.getStr "IDENTIFIER")),
    ("CFBundleInfoDictionaryVersion", .str "6.0"),
    ("CFBundleName", .str name),
    ("CFBundleDisplayName", .str name),
    ("CFBundlePackageType", .str "APPL"),
    ("CFBundleVersion", .str (b.config.getStrD "LONG_VERSION" version)),
    ("CFBundleShortVersionString", .str version),
    ("CFBundleSignature", .str "????"),
    ("LSMinimumSystemVersion", .str "10.9.0"),
    ("LSUIElement", .bool false),
    ("NSHighResolutionCapable", .bool true),
    ("NSSupportsAutomaticGraphicsSwitching", .bool true),
    ("NSHumanReadableCopyright",
      .str ("Â© " ++ toString b.year ++ " " ++ b.config.getStr "AUTHOR"))]
  let pl1 :=
    if b.config.hasKey "ICON_PATH" then
      plistSet base "CFBundleIconFile"
        (.str (basename (b.config.getStr "ICON_PATH")))
    else base
  let pl2 :=
    match b.config.find? "APP_SUPPORTED_FILES" with
    | some (.plistDict d) => plistUpdate pl1 d
    | _ => pl1
  match b.config.find? "PLIST_ADDITIONS" with
  | some (.plistDict d) => plistUpdate pl2 d
  | _ => pl2

/-- `MacAppBuilder.create_plist` (lines 274-310): serialize `info_plist`
to `Contents/Info.plist`. -/
def MacAppBuilder.create_plist (b : MacAppBuilder) (fs : FS) : FS :=
  fs.set (b.app_file ++ ["Contents", "Info.plist"]) (.plistFile b.info_plist)

/-- The launcher template (lines 178-194) up to the spliced
`{entry_script}`. -/
def launcher_head : String :=
  "#!/usr/bin/env bash\n# Get the directory of this script\nDIR=\"$( cd \"$( dirname \"$\x7bBASH_SOURCE[0]\x7d\" )\" && pwd )\"\nCONTENTS_DIR=\"$(dirname \"$DIR\")\"\nRESOURCES_DIR=\"$CONTENTS_DIR/Resources\"\n\n# Set up environment\nexport PATH=\"$RESOURCES_DIR/bin:$PATH\"\nexport PYTHONHOME=\"$RESOURCES_DIR\"\nexport PYTHONNOUSERSITE=1\n\n# Disable user site-packages to ensure isolation\nexport PYTHONUSERBASE=/dev/null\n\n# Launch the application\nexec \"$RESOURCES_DIR/bin/python\" \"$RESOURCES_DIR/bin/"

/-- `launcher_content.format(entry_script=...)`. -/
def launcher_content (entry_script : String) : String :=
  launcher_head ++ entry_script ++ "\" \"$@\"\n"

/-- `os.chmod(p, 0o755)`: mark the file at `p` executable. -/
def FS.chmod_exec (fs : FS) (p : FPath) : FS :=
  match fs.get p with
  | some (.file fd) => fs.set p (.file { fd with isExec := true })
  | _ => fs

/-- `MacAppBuilder.create_launcher_script` (lines 174-200): write the
launcher, then mark it executable. -/
def MacAppBuilder.create_launcher_script (b : MacAppBuilder) (fs : FS) : FS :=
  let written := fs.set b.app_script
    (.file ⟨(launcher_content (b.config.getStr "ENTRY_SCRIPT")).toList,
            false, true, false⟩)
  written.chmod_exec b.app_script

/-! ## find_and_replace (lines 91-134) -/

/-- `any(excl in root for excl in exclusions)`: substring test on the
directory path string. -/
def should_exclude (exclusions : List String) (dir : FPath) : Bool :=
  exclusions.any (fun ex => decide (ex.toList <:+: (joinPath dir).toList))

/-- Per-file body of the `try` block: MIME probe, text check, read,
replace, write.  Returns (new data, changed?, errored?).  `procFails`
models an exception anywhere inside the block. -/
def process_file (search rep : List Char) (fd : FileData) :
    FileData × Bool × Bool :=
  if fd.procFails then (fd, false, true)
  else if fd.isTextFile = false then (fd, false, false)
  else if search <:+: fd.content then
    ({ fd with content := pyReplace search rep fd.content }, true, false)
  else (fd, false, false)

/-- The effect of one `os.walk` visit on one filesystem entry: files whose
directory lies under `path` and is not excluded are processed; everything
else is untouched.  Returns (entry, changed?, errored?). -/
def fr_entry (path : FPath) (search rep : List Char)
    (exclusions : List String) (pe : FPath × Entry) :
    (FPath × Entry) × Bool × Bool :=
  match pe with
  | (p, .file fd) =>
    if path <+: p ∧ p ≠ path ∧ should_exclude exclusions p.dropLast = false then
      let r := process_file search rep fd
      ((p, .file r.1), r.2)
    else ((p, .file fd), false, false)
  | other => (other, false, false)

/-- `MacAppBuilder.find_and_replace`: walk all files under `path`, rewrite
the text files containing `search`, collect per-file failures.  Returns
(filesystem, `processed_files`, `failed_files`). -/
def find_and_replace (fs : FS) (path : FPath) (search rep : List Char)
    (exclusions : List String) : FS × Nat × List FPath :=
  let results := fs.map (fr_entry path search rep exclusions)
  (results.map (fun x => x.1),
   (results.filter (fun x => x.2.1)).length,
   results.filterMap (fun x => if x.2.2 then some x.1.1 else none))

/-- Direct characterisation of the files `find_and_replace` counts as
changed: walked, not excluded, no processing error, textual, and
containing the search string. -/
def file_changes (path : FPath) (search : List Char) (exclusions : List String)
    (pe : FPath × Entry) : Bool :=
  match pe.2 with
  | .file fd => decide (path <+: pe.1 ∧ pe.1 ≠ path ∧
      should_exclude exclusions pe.1.dropLast = false ∧
      fd.procFails = false ∧ fd.isTextFile = true ∧ search <:+: fd.content)
  | _ => false

/-- Direct characterisation of the files `find_and_replace` records as
failed: walked, not excluded, and erroring during processing. -/
def file_errors (path : FPath) (exclusions : List String)
    (pe : FPath × Entry) : Bool :=
  match pe.2 with
  | .file fd => decide (path <+: pe.1 ∧ pe.1 ≠ path ∧
      should_exclude exclusions pe.1.dropLast = false ∧ fd.procFails = true)
  | _ => false

/-- `MacAppBuilder.fix_paths` (lines 247-258). -/
def MacAppBuilder.fix_paths (b : MacAppBuilder) (fs : FS) : FS :=
  let app_path := "/Applications/" ++ b.config.getStr "APP_NAME" ++ ".app" ++
    "/Contents/Resources"
  (find_and_replace fs b.resource_dir
    (b.config.getStr "CONDA_ENV_PATH").toList app_path.toList
    ["site-packages", "doc", "Resources/lib/python"]).1

/-! ## cleanup_bundle (lines 218-245) -/

def default_exclusions : List String :=
  ["*.pyc", "__pycache__", ".DS_Store", "include/", "share/doc/",
   "share/man/", "conda-meta/", "pkgs/"]

/-- One iteration of the deletion loop: `rmtree` for directories, `unlink`
otherwise; an exception (here: the target is already gone) is caught and
logged, never propagated. -/
def try_remove (fs : FS) (p : FPath) : FS × List String :=
  match fs.get p with
  | some .dir => (fs.removeTree p, [])
  | some _ => (fs.remove p, [])
  | none => (fs, ["Could not remove " ++ joinPath p])

/-- `Path(root).rglob(pattern)`: the paths strictly below `root` matched by
`pattern`, in filesystem order.  `matchFn` is pathlib's glob semantics,
treated as an external oracle. -/
def rglob_matches (matchFn : String → FPath → Bool) (fs : FS) (root : FPath)
    (pattern : String) : List FPath :=
  fs.filterMap (fun pe =>
    if root <+: pe.1 ∧ pe.1 ≠ root ∧ matchFn pattern pe.1 = true
    then some pe.1 else none)

/-- Inner loop of `cleanup_bundle` for one pattern. -/
def cleanup_pattern (matchFn : String → FPath → Bool) (root : FPath)
    (st : FS × List String) (pattern : String) : FS × List String :=
  (rglob_matches matchFn st.1 root pattern).foldl
    (fun acc p =>
      let r := try_remove acc.1 p
      (r.1, acc.2 ++ r.2)) st

/-- `exclusions = self.config.get('CONDA_EXCLUDE_FILES', []) +
default_exclusions`. -/
def MacAppBuilder.cleanup_patterns (b : MacAppBuilder) : List String :=
  b.config.getStrList "CONDA_EXCLUDE_FILES" ++ default_exclusions

/-- `MacAppBuilder.cleanup_bundle`: apply every pattern in order; returns
the filesystem and the warnings logged. -/
def MacAppBuilder.cleanup_bundle (b : MacAppBuilder)
    (matchFn : String → FPath → Bool) (fs : FS) : FS × List String :=
  b.cleanup_patterns.foldl (cleanup_pattern matchFn b.resource_dir) (fs, [])

/-! ## code_sign (lines 312-326) -/

/-- Outcome of the external `codesign` invocation. -/
inductive SignOutcome where
  | success
  | nonzeroExit
deriving DecidableEq, Repr

/-- `subprocess.run([...], check=True)`: raises `CalledProcessError` on a
nonzero exit. -/
def run_codesign (outcome : SignOutcome) : Except String Unit :=
  match outcome with
  | .success => .ok ()
  | .nonzeroExit => .error "CalledProcessError"

/-- `MacAppBuilder.code_sign`: skip unless CODE_SIGN is set; catch a
signing failure and log a warning.  The `Except` result records whether an
exception propagates to the caller. -/
def MacAppBuilder.code_sign (b : MacAppBuilder) (outcome : SignOutcome) :
    Except String (List String) :=
  if b.config.getBoolD "CODE_SIGN" false = false then .ok []
  else
    match run_codesign outcome with
    | .ok _ => .ok ["Code signing successful"]
    | .error e => .ok ["Code signing failed: " ++ e]

/-! ## create_app (lines 136-166) -/

/-- The stage sequence of `create_app` after the clear/skip decision. -/
def MacAppBuilder.pipeline (b : MacAppBuilder)
    (matchFn : String → FPath → Bool) (signOutcome : SignOutcome)
    (fs : FS) : FS :=
  let fs1 := b.create_app_structure fs
  let fs2 := b.copy_conda_env fs1
  let fs3 := (b.copy_icon fs2).1
  let fs4 := b.create_plist fs3
  let fs5 := b.create_launcher_script fs4
  let fs6 := b.fix_paths fs5
  let fs7 := (b.cleanup_bundle matchFn fs6).1
  let _ := b.code_sign signOutcome
  fs7

/-- `MacAppBuilder.create_app`: returns (filesystem, return value, info
log). -/
def MacAppBuilder.create_app (b : MacAppBuilder)
    (matchFn : String → FPath → Bool) (signOutcome : SignOutcome)
    (fs : FS) (clear : Bool) : FS × Bool × List String :=
  if (fs.get b.app_file).isSome then
    if clear = false then (fs, false, ["Skipping app creation"])
    else (b.pipeline matchFn signOutcome (fs.removeTree b.app_file), true,
      ["Removing previous app", "Creating app bundle..."])
  else (b.pipeline matchFn signOutcome fs, true, ["Creating app bundle..."])

/-! ## create_dmg (lines 328-372) -/

/-- `f.stat().st_size` idealised: the byte length of a file's content;
directories (and the structured plist entry) contribute 0. -/
def entry_size : Entry → Nat
  | .file fd => fd.content.length
  | _ => 0

/-- `sum(f.stat().st_size for f in Path(app_file).rglob('*'))`. -/
def total_app_size (fs : FS) (root : FPath) : Nat :=
  (fs.filterMap (fun pe =>
    if root <+: pe.1 ∧ pe.1 ≠ root then some (entry_size pe.2) else none)).sum

/-- A single-quote character, used by Python `str()` renderings. -/
def sq : String := (Char.ofNat 39).toString

/-- Python `str(value)` for the settings writer. -/
def pyStr : CVal → String
  | .str s => s
  | .strList l =>
    "[" ++ String.intercalate ", " (l.map (fun s => sq ++ s ++ sq)) ++ "]"
  | .bool b => if b then "True" else "False"
  | .nat n => toString n
  | .plistDict _ => "\x7b...\x7d"
  | .py r => r

/-- One line of the temporary dmgbuild settings file (lines 360-364). -/
def render_setting (kv : String × CVal) : String :=
  match kv.2 with
  | .str s => kv.1 ++ " = \"" ++ s ++ "\""
  | v => kv.1 ++ " = " ++ pyStr v

/-- The optional cosmetic settings: `(key, 'DMG_' + key.upper())` for the
five keys of line 352, with the uppercasing precomputed. -/
def dmg_optional_keys : List (String × String) :=
  [("badge_icon", "DMG_BADGE_ICON"), ("background", "DMG_BACKGROUND"),
   ("icon_size", "DMG_ICON_SIZE"), ("icon_locations", "DMG_ICON_LOCATIONS"),
   ("window_rect", "DMG_WINDOW_RECT")]

inductive DmgOutcome where
  /-- `dmgbuild.build_dmg` returned. -/
  | built
  /-- `dmgbuild.build_dmg` raised; the exception propagates. -/
  | raised (e : String)
deriving DecidableEq, Repr

/-- `MacAppBuilder.create_dmg`.  `buildOk` is the outcome of the external
`dmgbuild.build_dmg` call; `temp_settings` the fresh name handed out by
`tempfile.NamedTemporaryFile`.  The `try/finally` is modelled by removing
`temp_settings` on both branches. -/
def MacAppBuilder.create_dmg (b : MacAppBuilder) (fs : FS) (clear : Bool)
    (buildOk : Bool) (temp_settings : FPath) : FS × DmgOutcome × List String :=
  let name := b.config.getStr "APP_NAME"
  let dmg_filename := b.config.getStrD "DMG_FILE" (name ++ ".dmg")
  let dmg_path := splitPath (b.config.getStr "OUTPUT_FOLDER") ++ [dmg_filename]
  let fs1 := if clear ∧ (fs.get dmg_path).isSome then fs.remove dmg_path else fs
  let app_size_bytes := total_app_size fs1 b.app_file
  let dmg_size := dmg_size_str app_size_bytes
  let dmg_config : List (String × CVal) :=
    [("filename", .str (joinPath dmg_path)),
     ("volume_name", .str name),
     ("size", .str dmg_size),
     ("files", .strList [joinPath b.app_file]),
     ("symlinks", .py ("\x7b" ++ sq ++ "Applications" ++ sq ++ ": " ++
        sq ++ "/Applications" ++ sq ++ "\x7d")),
     ("format", .str (b.config.getStrD "DMG_FORMAT" "UDZO"))] ++
    dmg_optional_keys.filterMap (fun kv =>
      match b.config.find? kv.2 with
      | some v => some (kv.1, v)
      | none => none)
  let settings_text := "# -*- coding: utf-8 -*-\n" ++
    String.join (dmg_config.map (fun kv => render_setting kv ++ "\n"))
  let fs2 := fs1.set temp_settings (.file ⟨settings_text.toList, false, true, false⟩)
  match (if buildOk then Except.ok (fs2.set dmg_path (.file ⟨[], false, false, false⟩))
         else Except.error "build_dmg failed" : Except String FS) with
  | .ok fs3 => (fs3.remove temp_settings, .built, ["DMG created: " ++ joinPath dmg_path])
  | .error e => (fs2.remove temp_settings, .raised e, [])

/-! # Theorems -/

/-! ## Filesystem lemmas -/

theorem FS.get_keepIf (fs : FS) (keep : FPath → Bool) (p : FPath) :
    FS.get (fs.keepIf keep) p = if keep p then fs.get p else none := by
  induction fs with
  | nil => simp [FS.get, FS.keepIf]
  | cons pe fs ih =>
    simp only [FS.keepIf, List.filter_cons] at ih ⊢
    by_cases hk : keep pe.1 <;> by_cases hp : pe.1 = p
    · subst hp
      simp [FS.get, hk]
    · simp only [hk, if_true]
      simp only [FS.get, hp, if_false]
      exact ih
    · subst hp
      simp only [hk, Bool.false_eq_true, if_false] at ih ⊢
      exact ih
    · simp only [hk, Bool.false_eq_true, if_false] at ih ⊢
      rw [ih]
      simp [FS.get, hp]

theorem FS.get_set_self (fs : FS) (p : FPath) (e : Entry) :
    (fs.set p e).get p = some e := by
  simp [FS.get, FS.set]

theorem FS.get_set_ne (fs : FS) (p q : FPath) (e : Entry) (h : q ≠ p) :
    (fs.set p e).get q = fs.get q := by
  have h1 : (p = q) = False := by
    simp only [eq_iff_iff, iff_false]
    exact fun hh => h hh.symm
  simp only [FS.set, FS.get, h1, if_false]
  rw [FS.get_keepIf]
  simp [h]

theorem FS.get_remove_self (fs : FS) (p : FPath) :
    (fs.remove p).get p = none := by
  rw [FS.remove, FS.get_keepIf]
  simp

theorem FS.get_remove_ne (fs : FS) (p q : FPath) (h : q ≠ p) :
    (fs.remove p).get q = fs.get q := by
  rw [FS.remove, FS.get_keepIf]
  simp [h]

theorem FS.get_removeTree (fs : FS) (p q : FPath) :
    (fs.removeTree p).get q = if p <+: q then none else fs.get q := by
  rw [FS.removeTree, FS.get_keepIf]
  by_cases h : p <+: q <;> simp [h]

/-- Entry lookup commutes with a key-preserving `List.map` over the
filesystem: the looked-up entry is the image of the stored one. -/
theorem FS.get_map (fs : FS) (f : FPath × Entry → FPath × Entry)
    (hf : ∀ pe, (f pe).1 = pe.1) (p : FPath) :
    FS.get (fs.map f) p = Option.map (fun e => (f (p, e)).2) (FS.get fs p) := by
  induction fs with
  | nil => rfl
  | cons pe fs ih =>
    obtain ⟨q, e⟩ := pe
    simp only [List.map_cons, FS.get]
    have hq : (f (q, e)).1 = q := hf (q, e)
    by_cases hp : q = p
    · subst hp
      simp [hq]
    · simp only [hq, hp, if_false]
      exact ih

/-! ## C1: the disk-image size formula -/

theorem dmg_size_mb_eq_div (n : ℕ) : dmg_size_mb n = 13 * n / 10485760 := by
  unfold dmg_size_mb
  have h : ((n : ℚ) * (13 / 10) / 1024 / 1024) =
      ((13 * n : ℕ) : ℚ) / ((10485760 : ℕ) : ℚ) := by
    push_cast
    ring
  rw [h, Int.floor_toNat, Nat.floor_div_nat, Nat.floor_natCast]

/-- C1, counterexample: `create_dmg` truncates, it does not take a
ceiling.  On a bundle of exactly 2^20 bytes the code computes a size of
1 MB while the claimed formula `ceil(total_bundle_bytes * 1.3 /
1,048,576)` gives 2 MB. -/
theorem c1_ceiling_counterexample :
    dmg_size_mb 1048576 = 1 ∧ spec_dmg_size_mb 1048576 = 2 ∧
    dmg_size_mb 1048576 ≠ spec_dmg_size_mb 1048576 := by
  have h1 : dmg_size_mb 1048576 = 1 := by
    rw [dmg_size_mb_eq_div]
  have h2 : spec_dmg_size_mb 1048576 = 2 := by
    unfold spec_dmg_size_mb
    have h : ((1048576 : ℕ) : ℚ) * (13 / 10) / 1048576 = 13 / 10 := by
      norm_num
    rw [h]
    have h3 : Int.ceil ((13 : ℚ) / 10) = 2 := by
      rw [Int.ceil_eq_iff]
      norm_num
    rw [h3]
    rfl
  refine ⟨h1, h2, ?_⟩
  rw [h1, h2]
  decide

/-- C1, amended: for every bundle size, `create_dmg` computes the target
image size as the integer truncation (floor) of
`total_bundle_bytes * 1.3 / 1,048,576` megabytes — that is,
`⌊13·bytes/10,485,760⌋` — rather than its ceiling. -/
theorem c1_dmg_size_is_truncation (n : ℕ) :
    dmg_size_str n = toString (13 * n / 10485760) ++ "M" := by
  rw [dmg_size_str, dmg_size_mb_eq_div]

/-! ## C2: missing required keys are aggregated into one fatal error -/

/-- C2: whenever at least one required key is absent, `validate_config`
exits with code 1 and a single message listing exactly the missing keys
(all of them), for every filesystem state — in particular it returns
before the filesystem is even consulted, and it never writes it (its
result carries no filesystem). -/
theorem c2_missing_keys_aggregated_exit (home : String) (cfg : Config)
    (fs : FS)
    (h : required_vars.filter (fun v => ¬ cfg.hasKey v) ≠ []) :
    validate_config home cfg fs =
      .exit 1 ("Missing required configuration variables: " ++
        String.intercalate ", "
          (required_vars.filter (fun v => ¬ cfg.hasKey v))) ∧
    ∀ v ∈ required_vars, ¬ cfg.hasKey v →
      v ∈ required_vars.filter (fun v => ¬ cfg.hasKey v) := by
  constructor
  · simp only [validate_config]
    split
    · rfl
    · next hcond => exact absurd h hcond
  · intro v hv hnk
    simp [List.mem_filter, hv, hnk]

/-- C2, witness: a configuration containing only APP_NAME aborts with the
six other required keys listed in one message. -/
theorem c2_missing_keys_witness :
    required_vars.filter
      (fun v => ¬ Config.hasKey [("APP_NAME", CVal.str "Demo")] v) ≠ [] ∧
    validate_config "/root" [("APP_NAME", CVal.str "Demo")] [] =
      .exit 1 ("Missing required configuration variables: " ++
        String.intercalate ", "
          (required_vars.filter
            (fun v => ¬ Config.hasKey [("APP_NAME", CVal.str "Demo")] v))) :=
  ⟨by decide, (c2_missing_keys_aggregated_exit "/root"
      [("APP_NAME", CVal.str "Demo")] [] (by decide)).1⟩

/-! ## C3: create_app with clear disabled and an existing bundle -/

/-- C3: if the bundle root already exists and `clear` is off, `create_app`
returns the filesystem unchanged, reports "Skipping app creation", and
returns `False`. -/
theorem c3_skip_no_mutation (b : MacAppBuilder)
    (matchFn : String → FPath → Bool) (so : SignOutcome) (fs : FS)
    (h : (FS.get fs b.app_file).isSome = true) :
    b.create_app matchFn so fs false = (fs, false, ["Skipping app creation"]) := by
  simp [MacAppBuilder.create_app, h]

/-- C3, witness: a concrete builder and filesystem with the bundle root
present. -/
theorem c3_skip_no_mutation_witness :
    (FS.get [(["", "out", "Demo.app"], Entry.dir)]
      (MacAppBuilder.app_file ⟨[("APP_NAME", CVal.str "Demo"),
        ("OUTPUT_FOLDER", CVal.str "/out")], "/root", 2026⟩)).isSome = true ∧
    MacAppBuilder.create_app ⟨[("APP_NAME", CVal.str "Demo"),
        ("OUTPUT_FOLDER", CVal.str "/out")], "/root", 2026⟩
      (fun _ _ => false) SignOutcome.success
      [(["", "out", "Demo.app"], Entry.dir)] false =
      ([(["", "out", "Demo.app"], Entry.dir)], false,
        ["Skipping app creation"]) :=
  ⟨by decide, c3_skip_no_mutation _ _ _ _ (by decide)⟩

/-! ## C6: the temporary dmgbuild settings file is always removed -/

/-- C6: after `create_dmg` returns — whether `dmgbuild.build_dmg`
succeeded or raised — the temporary settings file no longer exists. -/
theorem c6_temp_settings_removed (b : MacAppBuilder) (fs : FS)
    (clear buildOk : Bool) (temp : FPath) :
    FS.get (b.create_dmg fs clear buildOk temp).1 temp = none := by
  cases buildOk <;> simp [MacAppBuilder.create_dmg, FS.get_remove_self]

/-! ## C7: a signing failure is a warning, not an error -/

/-- C7: with signing enabled, a nonzero exit of the `codesign` utility is
caught and logged as a warning and `code_sign` still returns normally
(`.ok`); a successful invocation also returns normally. -/
theorem c7_sign_failure_not_fatal (b : MacAppBuilder)
    (h : b.config.getBoolD "CODE_SIGN" false = true) :
    b.code_sign SignOutcome.nonzeroExit =
      .ok ["Code signing failed: CalledProcessError"] ∧
    b.code_sign SignOutcome.success = .ok ["Code signing successful"] := by
  constructor <;> simp [MacAppBuilder.code_sign, h, run_codesign]

/-- C7, witness: a concrete configuration with CODE_SIGN enabled. -/
theorem c7_sign_failure_not_fatal_witness :
    Config.getBoolD [("CODE_SIGN", CVal.bool true)] "CODE_SIGN" false = true ∧
    MacAppBuilder.code_sign ⟨[("CODE_SIGN", CVal.bool true)], "/h", 2026⟩
      SignOutcome.nonzeroExit =
      .ok ["Code signing failed: CalledProcessError"] :=
  ⟨rfl, (c7_sign_failure_not_fatal ⟨[("CODE_SIGN", CVal.bool true)], "/h", 2026⟩
      rfl).1⟩

/-! ## C10: a missing icon file is warned about but still referenced -/

/-- C10: when ICON_PATH is configured but no file exists at the expanded
path, `copy_icon` leaves the filesystem unchanged and logs a warning,
while `create_plist` still emits a CFBundleIconFile entry naming the
basename of the missing icon — so the plist references an icon absent from
the bundle. -/
theorem c10_missing_icon_still_referenced (b : MacAppBuilder) (fs : FS)
    (ip : String)
    (hicon : b.config.find? "ICON_PATH" = some (CVal.str ip))
    (hmiss : FS.get fs (splitPath (expanduser b.home ip)) = none)
    (habs : FS.get fs
      (b.resource_dir ++ [basename (expanduser b.home ip)]) = none)
    (hsup : b.config.find? "APP_SUPPORTED_FILES" = none)
    (hadd : b.config.find? "PLIST_ADDITIONS" = none) :
    b.copy_icon fs = (fs, ["Icon file not found: " ++ expanduser b.home ip]) ∧
    FS.get (b.copy_icon fs).1
      (b.resource_dir ++ [basename (expanduser b.home ip)]) = none ∧
    plistFind? b.info_plist "CFBundleIconFile" = some (.str (basename ip)) := by
  have hcopy : b.copy_icon fs =
      (fs, ["Icon file not found: " ++ expanduser b.home ip]) := by
    simp [MacAppBuilder.copy_icon, hicon, hmiss]
  refine ⟨hcopy, ?_, ?_⟩
  · rw [hcopy]
    exact habs
  · have hstr : b.config.getStr "ICON_PATH" = ip := by
      simp [Config.getStr, hicon]
    have hkey : b.config.hasKey "ICON_PATH" = true := by
      simp [Config.hasKey, hicon]
    simp [MacAppBuilder.info_plist, hsup, hadd, hkey, hstr, plistSet, plistFind?]

/-- C10, witness: a concrete configuration naming an icon that does not
exist. -/
theorem c10_missing_icon_witness :
    MacAppBuilder.copy_icon ⟨[("ICON_PATH", CVal.str "/icons/app.icns")],
      "/h", 2026⟩ [] =
      ([], ["Icon file not found: /icons/app.icns"]) ∧
    plistFind? (MacAppBuilder.info_plist
      ⟨[("ICON_PATH", CVal.str "/icons/app.icns")], "/h", 2026⟩)
      "CFBundleIconFile" = some (.str "app.icns") := by
  have h := c10_missing_icon_still_referenced
    ⟨[("ICON_PATH", CVal.str "/icons/app.icns")], "/h", 2026⟩ []
    "/icons/app.icns" rfl rfl rfl rfl rfl
  exact ⟨h.1, h.2.2⟩

/-! ## String-replacement lemmas (for C4) -/

/-- A nonempty prefix of the replacement output whose characters all lie
in `s` is already a prefix of the input (replacement characters are
disjoint from `s`, so such a prefix cannot reach into an inserted `r`). -/
theorem pyReplace_prefix_transfer (s r : List Char) (hs : s ≠ []) (hr : r ≠ [])
    (hdisj : ∀ c ∈ r, c ∉ s) :
    ∀ t u, u ≠ [] → (∀ c ∈ u, c ∈ s) → u <+: pyReplace s r t → u <+: t := by
  suffices h : ∀ n t, t.length ≤ n → ∀ u, u ≠ [] → (∀ c ∈ u, c ∈ s) →
      u <+: pyReplace s r t → u <+: t by
    exact fun t u h1 h2 h3 => h t.length t le_rfl u h1 h2 h3
  intro n
  induction n with
  | zero =>
    intro t ht u hu _ hpre
    have ht0 : t = [] := List.length_eq_zero.mp (Nat.le_zero.mp ht)
    subst ht0
    rw [pyReplace, if_neg hs] at hpre
    exact absurd (List.prefix_nil.mp hpre) hu
  | succ n ih =>
    intro t ht u hu hchar hpre
    match t with
    | [] =>
      rw [pyReplace, if_neg hs] at hpre
      exact absurd (List.prefix_nil.mp hpre) hu
    | c :: t' =>
      rw [pyReplace, if_neg hs] at hpre
      by_cases hp : s <+: c :: t'
      · rw [if_pos hp] at hpre
        match u, hu with
        | a :: u', _ =>
          match r, hr with
          | b :: r', _ =>
            rw [List.cons_append] at hpre
            obtain ⟨hab, -⟩ := List.cons_prefix_cons.mp hpre
            exact absurd (hchar a (List.mem_cons_self a u'))
              (hdisj a (hab ▸ List.mem_cons_self b r'))
      · rw [if_neg hp] at hpre
        match u, hu with
        | a :: u', _ =>
          obtain ⟨hac, hpre'⟩ := List.cons_prefix_cons.mp hpre
          by_cases hu' : u' = []
          · subst hu'
            subst hac
            exact List.cons_prefix_cons.mpr ⟨rfl, List.nil_prefix⟩
          · have hlen : t'.length ≤ n := by
              simp only [List.length_cons] at ht
              omega
            have := ih t' hlen u' hu'
              (fun x hx => hchar x (List.mem_cons_of_mem a hx)) hpre'
            exact List.cons_prefix_cons.mpr ⟨hac, this⟩

/-- An occurrence of `s` inside `u ++ v` lies inside `v` whenever the
characters of `u` are disjoint from `s`. -/
theorem infix_append_right_of_disjoint (s u v : List Char) (hs : s ≠ [])
    (hdisj : ∀ c ∈ u, c ∉ s) : s <:+: u ++ v → s <:+: v := by
  induction u with
  | nil =>
    intro h
    rwa [List.nil_append] at h
  | cons a u' ih =>
    intro hinf
    rw [List.cons_append] at hinf
    rcases List.infix_cons_iff.mp hinf with hpre | hinf'
    · match s, hs with
      | b :: s₀, _ =>
        obtain ⟨hba, -⟩ := List.cons_prefix_cons.mp hpre
        have hmem : a ∈ b :: s₀ := by
          rw [hba]
          exact List.mem_cons_self a s₀
        exact absurd hmem (hdisj a (List.mem_cons_self a u'))
    · exact ih (fun c hc => hdisj c (List.mem_cons_of_mem a hc)) hinf'

/-- Central lemma: when the characters of the nonempty replacement `r` are
disjoint from the nonempty search string `s`, the output of
`pyReplace s r` never contains `s`. -/
theorem pyReplace_no_occurrence (s r : List Char) (hs : s ≠ []) (hr : r ≠ [])
    (hdisj : ∀ c ∈ r, c ∉ s) : ∀ t, ¬ s <:+: pyReplace s r t := by
  suffices h : ∀ n t, t.length ≤ n → ¬ s <:+: pyReplace s r t by
    exact fun t => h t.length t le_rfl
  intro n
  induction n with
  | zero =>
    intro t ht hinf
    have ht0 : t = [] := List.length_eq_zero.mp (Nat.le_zero.mp ht)
    subst ht0
    rw [pyReplace, if_neg hs] at hinf
    exact hs (List.eq_nil_of_infix_nil hinf)
  | succ n ih =>
    intro t ht hinf
    match t with
    | [] =>
      rw [pyReplace, if_neg hs] at hinf
      exact hs (List.eq_nil_of_infix_nil hinf)
    | c :: t' =>
      rw [pyReplace, if_neg hs] at hinf
      have hlen' : t'.length ≤ n := by
        simp only [List.length_cons] at ht
        omega
      by_cases hp : s <+: c :: t'
      · rw [if_pos hp] at hinf
        have h2 := infix_append_right_of_disjoint s r _ hs hdisj hinf
        have hlen : (t'.drop (s.length - 1)).length ≤ n := by
          simp only [List.length_drop]
          omega
        exact ih _ hlen h2
      · rw [if_neg hp] at hinf
        rcases List.infix_cons_iff.mp hinf with hpre | hinf'
        · match s, hs with
          | a :: s₀, _ =>
            obtain ⟨hac, hpre'⟩ := List.cons_prefix_cons.mp hpre
            by_cases h0 : s₀ = []
            · subst h0
              subst hac
              exact hp (List.cons_prefix_cons.mpr ⟨rfl, List.nil_prefix⟩)
            · have := pyReplace_prefix_transfer (a :: s₀) r (by simp) hr hdisj
                t' s₀ h0 (fun x hx => List.mem_cons_of_mem a hx) hpre'
              exact hp (List.cons_prefix_cons.mpr ⟨hac, this⟩)
        · exact ih t' hlen' hinf'

/-- `pyReplace` leaves a string without occurrences unchanged. -/
theorem pyReplace_eq_self (s r : List Char) (hs : s ≠ []) :
    ∀ t, ¬ s <:+: t → pyReplace s r t = t := by
  intro t
  induction t with
  | nil =>
    intro _
    rw [pyReplace, if_neg hs]
  | cons c t' ih =>
    intro hno
    have hp : ¬ s <+: c :: t' := fun h => hno h.isInfix
    rw [pyReplace, if_neg hs, if_neg hp]
    rw [ih (fun h => hno (List.infix_cons h))]

/-! ## find_and_replace structure lemmas (for C4 and C5) -/

theorem fr_entry_key (path : FPath) (s r : List Char) (ex : List String)
    (pe : FPath × Entry) : (fr_entry path s r ex pe).1.1 = pe.1 := by
  obtain ⟨p, e⟩ := pe
  cases e with
  | dir => rfl
  | plistFile pl => rfl
  | file fd =>
    simp only [fr_entry]
    split
    · rfl
    · rfl

theorem find_and_replace_fst (fs : FS) (path : FPath) (s r : List Char)
    (ex : List String) :
    (find_and_replace fs path s r ex).1 =
      fs.map (fun pe => (fr_entry path s r ex pe).1) := by
  simp only [find_and_replace, List.map_map]
  rfl

theorem find_and_replace_get (fs : FS) (path : FPath) (s r : List Char)
    (ex : List String) (p : FPath) :
    FS.get (find_and_replace fs path s r ex).1 p =
      Option.map (fun e => (fr_entry path s r ex (p, e)).1.2) (FS.get fs p) := by
  rw [find_and_replace_fst,
    FS.get_map fs _ (fun pe => fr_entry_key path s r ex pe) p]

theorem process_file_flags (s r : List Char) (fd : FileData) :
    ((process_file s r fd).1).procFails = fd.procFails ∧
    ((process_file s r fd).1).isTextFile = fd.isTextFile := by
  unfold process_file
  split
  · exact ⟨rfl, rfl⟩
  · split
    · exact ⟨rfl, rfl⟩
    · split
      · exact ⟨rfl, rfl⟩
      · exact ⟨rfl, rfl⟩

/-- After processing, a sane (no-error, textual) file contains no
occurrence of the search string, provided the replacement characters are
disjoint from it. -/
theorem process_file_no_occurrence (s r : List Char) (hs : s ≠ [])
    (hr : r ≠ []) (hdisj : ∀ c ∈ r, c ∉ s) (fd : FileData)
    (hfail : fd.procFails = false) (htext : fd.isTextFile = true) :
    ¬ s <:+: ((process_file s r fd).1).content := by
  by_cases hc : s <:+: fd.content
  · have h1 : (process_file s r fd).1 =
        { fd with content := pyReplace s r fd.content } := by
      simp [process_file, hfail, htext, hc]
    rw [h1]
    exact pyReplace_no_occurrence s r hs hr hdisj fd.content
  · have h1 : (process_file s r fd).1 = fd := by
      simp [process_file, hfail, htext, hc]
    rw [h1]
    exact hc

/-- Processing is idempotent: a second pass neither changes a file nor
reports it as changed. -/
theorem process_file_second (s r : List Char) (hs : s ≠ []) (hr : r ≠ [])
    (hdisj : ∀ c ∈ r, c ∉ s) (fd : FileData) :
    (process_file s r (process_file s r fd).1).1 = (process_file s r fd).1 ∧
    (process_file s r (process_file s r fd).1).2.1 = false := by
  by_cases hfail : fd.procFails = true
  · have h1 : (process_file s r fd).1 = fd := by
      simp [process_file, hfail]
    rw [h1]
    simp [process_file, hfail]
  · simp only [Bool.not_eq_true] at hfail
    by_cases htext : fd.isTextFile = true
    · by_cases hc : s <:+: fd.content
      · have h1 : (process_file s r fd).1 =
            { fd with content := pyReplace s r fd.content } := by
          simp [process_file, hfail, htext, hc]
        rw [h1]
        have hno : ¬ s <:+: pyReplace s r fd.content :=
          pyReplace_no_occurrence s r hs hr hdisj fd.content
        simp [process_file, hfail, htext, hno]
      · have h1 : (process_file s r fd).1 = fd := by
          simp [process_file, hfail, htext, hc]
        rw [h1]
        simp [process_file, hfail, htext, hc]
    · simp only [Bool.not_eq_true] at htext
      have h1 : (process_file s r fd).1 = fd := by
        simp [process_file, hfail, htext]
      rw [h1]
      simp [process_file, hfail, htext]

theorem fr_entry_idem (path : FPath) (s r : List Char) (ex : List String)
    (hs : s ≠ []) (hr : r ≠ []) (hdisj : ∀ c ∈ r, c ∉ s)
    (pe : FPath × Entry) :
    (fr_entry path s r ex ((fr_entry path s r ex pe).1)).1 =
      (fr_entry path s r ex pe).1 ∧
    (fr_entry path s r ex ((fr_entry path s r ex pe).1)).2.1 = false := by
  obtain ⟨p, e⟩ := pe
  cases e with
  | dir => exact ⟨rfl, rfl⟩
  | plistFile pl => exact ⟨rfl, rfl⟩
  | file fd =>
    by_cases hcond : path <+: p ∧ p ≠ path ∧
        should_exclude ex p.dropLast = false
    · have h1 : fr_entry path s r ex (p, .file fd) =
          ((p, .file (process_file s r fd).1), (process_file s r fd).2) := by
        simp [fr_entry, hcond]
      rw [h1]
      have h2 : fr_entry path s r ex (p, .file (process_file s r fd).1) =
          ((p, .file (process_file s r (process_file s r fd).1).1),
            (process_file s r (process_file s r fd).1).2) := by
        simp [fr_entry, hcond]
      have hsec := process_file_second s r hs hr hdisj fd
      constructor
      · simp only [h2, hsec.1]
      · simp only [h2, hsec.2]
    · have h1 : fr_entry path s r ex (p, .file fd) =
          ((p, .file fd), false, false) := by
        simp only [fr_entry, if_neg hcond]
      rw [h1]
      rw [h1]
      simp

/-! ## C4: path rewriting and idempotence -/

/-- C4, counterexample: with search `"aa"` and replacement `"ba"` (the
search does not occur in the replacement), a processed file `"aaa"`
becomes `"baa"`, which still contains the search string, and a second run
over the rewritten tree modifies one file, not zero. -/
theorem c4_reformation_counterexample :
    ¬ ((['a', 'a'] : List Char) <:+: ['b', 'a']) ∧
    FS.get (find_and_replace
        [(["r", "f"], Entry.file ⟨['a', 'a', 'a'], false, true, false⟩)]
        ["r"] ['a', 'a'] ['b', 'a'] []).1 ["r", "f"] =
      some (Entry.file ⟨['b', 'a', 'a'], false, true, false⟩) ∧
    ((['a', 'a'] : List Char) <:+: ['b', 'a', 'a']) ∧
    (find_and_replace (find_and_replace
        [(["r", "f"], Entry.file ⟨['a', 'a', 'a'], false, true, false⟩)]
        ["r"] ['a', 'a'] ['b', 'a'] []).1
        ["r"] ['a', 'a'] ['b', 'a'] []).2.1 = 1 := by
  have hrep : pyReplace ['a', 'a'] ['b', 'a'] ['a', 'a', 'a'] =
      ['b', 'a', 'a'] := by
    simp [pyReplace.eq_def]
  have h1 : (['a', 'a'] : List Char) <:+: ['a', 'a', 'a'] := by decide
  have h2 : (['a', 'a'] : List Char) <:+: ['b', 'a', 'a'] := by decide
  refine ⟨by decide, ?_, by decide, ?_⟩
  · simp [find_and_replace, fr_entry, process_file, should_exclude, FS.get,
      hrep, h1, h2]
  · simp [find_and_replace, fr_entry, process_file, should_exclude, FS.get,
      hrep, h1, h2]

/-- C4, amended: `find_and_replace` replaces the leftmost non-overlapping
occurrences of the search string once per pass; an occurrence of the
search string can re-form across a replacement boundary, so the claimed
postcondition needs a stronger hypothesis than "s does not occur in r".
When no character of the nonempty replacement occurs in the nonempty
search string, then after one run no processed (walked, non-excluded,
non-erroring, textual) file contains the search string, and a second run
over the rewritten tree changes the filesystem not at all and reports
zero files changed. -/
theorem c4_rewrite_idempotent_amended (fs : FS) (path : FPath)
    (s r : List Char) (ex : List String)
    (hs : s ≠ []) (hr : r ≠ []) (hdisj : ∀ c ∈ r, c ∉ s) :
    (∀ p fd, FS.get (find_and_replace fs path s r ex).1 p =
        some (.file fd) →
      path <+: p → p ≠ path → should_exclude ex p.dropLast = false →
      fd.procFails = false → fd.isTextFile = true →
      ¬ s <:+: fd.content) ∧
    (find_and_replace (find_and_replace fs path s r ex).1 path s r ex).1 =
      (find_and_replace fs path s r ex).1 ∧
    (find_and_replace (find_and_replace fs path s r ex).1 path s r ex).2.1
      = 0 := by
  refine ⟨?_, ?_, ?_⟩
  · intro p fd hget h1 h2 h3 hfail htext
    rw [find_and_replace_get] at hget
    cases hfs : FS.get fs p with
    | none =>
      rw [hfs] at hget
      exact absurd hget (by simp)
    | some e₀ =>
      rw [hfs] at hget
      simp only [Option.map_some'] at hget
      cases e₀ with
      | dir => exact absurd hget (by simp [fr_entry])
      | plistFile pl => exact absurd hget (by simp [fr_entry])
      | file fd₀ =>
        have hcond : path <+: p ∧ p ≠ path ∧
            should_exclude ex p.dropLast = false := ⟨h1, h2, h3⟩
        have heq : (fr_entry path s r ex (p, .file fd₀)).1.2 =
            .file (process_file s r fd₀).1 := by
          simp [fr_entry, hcond]
        rw [heq] at hget
        have hfd : fd = (process_file s r fd₀).1 := by
          have hsy := hget.symm
          simp only [Option.some.injEq, Entry.file.injEq] at hsy
          exact hsy
        have hflags := process_file_flags s r fd₀
        have hfail₀ : fd₀.procFails = false := by
          rw [← hflags.1, ← hfd]
          exact hfail
        have htext₀ : fd₀.isTextFile = true := by
          rw [← hflags.2, ← hfd]
          exact htext
        rw [hfd]
        exact process_file_no_occurrence s r hs hr hdisj fd₀ hfail₀ htext₀
  · rw [find_and_replace_fst, find_and_replace_fst, List.map_map]
    apply List.map_congr_left
    intro pe _
    exact (fr_entry_idem path s r ex hs hr hdisj pe).1
  · rw [find_and_replace_fst]
    simp only [find_and_replace, List.map_map, List.length_eq_zero,
      List.filter_eq_nil_iff]
    intro a ha
    rw [List.mem_map] at ha
    obtain ⟨pe, -, rfl⟩ := ha
    have h2 := (fr_entry_idem path s r ex hs hr hdisj pe).2
    simp only [Function.comp_apply]
    simp [h2]

/-! ## C5: find_and_replace counts and best-effort semantics -/

theorem fr_entry_changed (path : FPath) (s r : List Char) (ex : List String)
    (pe : FPath × Entry) :
    (fr_entry path s r ex pe).2.1 = file_changes path s ex pe := by
  obtain ⟨p, e⟩ := pe
  cases e with
  | dir => rfl
  | plistFile pl => rfl
  | file fd =>
    by_cases hcond : path <+: p ∧ p ≠ path ∧
        should_exclude ex p.dropLast = false
    · obtain ⟨h1, h2, h3⟩ := hcond
      by_cases hfail : fd.procFails = true
      · simp [fr_entry, process_file, file_changes, h1, h2, h3, hfail]
      · simp only [Bool.not_eq_true] at hfail
        by_cases htext : fd.isTextFile = true
        · by_cases hc : s <:+: fd.content
          · simp [fr_entry, process_file, file_changes, h1, h2, h3, hfail,
              htext, hc]
          · simp [fr_entry, process_file, file_changes, h1, h2, h3, hfail,
              htext, hc]
        · simp only [Bool.not_eq_true] at htext
          simp [fr_entry, process_file, file_changes, h1, h2, h3, hfail,
            htext]
    · have hfc : file_changes path s ex (p, .file fd) = false := by
        simp only [file_changes]
        exact decide_eq_false (fun h => hcond ⟨h.1, h.2.1, h.2.2.1⟩)
      rw [hfc]
      simp only [fr_entry, if_neg hcond]

theorem fr_entry_errored (path : FPath) (s r : List Char) (ex : List String)
    (pe : FPath × Entry) :
    (fr_entry path s r ex pe).2.2 = file_errors path ex pe := by
  obtain ⟨p, e⟩ := pe
  cases e with
  | dir => rfl
  | plistFile pl => rfl
  | file fd =>
    by_cases hcond : path <+: p ∧ p ≠ path ∧
        should_exclude ex p.dropLast = false
    · obtain ⟨h1, h2, h3⟩ := hcond
      by_cases hfail : fd.procFails = true
      · simp [fr_entry, process_file, file_errors, h1, h2, h3, hfail]
      · simp only [Bool.not_eq_true] at hfail
        by_cases htext : fd.isTextFile = true
        · by_cases hc : s <:+: fd.content
          · simp [fr_entry, process_file, file_errors, h1, h2, h3, hfail,
              htext, hc]
          · simp [fr_entry, process_file, file_errors, h1, h2, h3, hfail,
              htext, hc]
        · simp only [Bool.not_eq_true] at htext
          simp [fr_entry, process_file, file_errors, h1, h2, h3, hfail,
            htext]
    · have hfe : file_errors path ex (p, .file fd) = false := by
        simp only [file_errors]
        exact decide_eq_false (fun h => hcond ⟨h.1, h.2.1, h.2.2.1⟩)
      rw [hfe]
      simp only [fr_entry, if_neg hcond]

theorem filter_map_fr_length (path : FPath) (s r : List Char)
    (ex : List String) : ∀ fs : FS,
    ((fs.map (fr_entry path s r ex)).filter (fun x => x.2.1)).length =
      (fs.filter (file_changes path s ex)).length := by
  intro fs
  induction fs with
  | nil => rfl
  | cons pe fs ih =>
    simp only [List.map_cons, List.filter_cons, fr_entry_changed]
    by_cases h : file_changes path s ex pe = true
    · simp [h, ih]
    · simp only [Bool.not_eq_true] at h
      simp [h, ih]

theorem filterMap_fr_failed (path : FPath) (s r : List Char)
    (ex : List String) : ∀ fs : FS,
    ((fs.map (fr_entry path s r ex)).filterMap
        (fun x => if x.2.2 then some x.1.1 else none)) =
      (fs.filter (file_errors path ex)).map (fun pe => pe.1) := by
  intro fs
  induction fs with
  | nil => rfl
  | cons pe fs ih =>
    simp only [List.map_cons, List.filterMap_cons, List.filter_cons,
      fr_entry_errored, fr_entry_key]
    by_cases h : file_errors path ex pe = true
    · simp [h, ih, fr_entry_key]
    · simp only [Bool.not_eq_true] at h
      simp [h, ih]

/-- C5: `find_and_replace` returns the tally of changed files and the list
of files that errored (whose length is the error count); a per-file error
is recorded and does not abort the scan — every other file under the walk
is still visited and processed, its final content depending only on its
own data. -/
theorem c5_counts_and_best_effort (fs : FS) (path : FPath)
    (s r : List Char) (ex : List String) :
    (find_and_replace fs path s r ex).2.1 =
      (fs.filter (file_changes path s ex)).length ∧
    (find_and_replace fs path s r ex).2.2 =
      (fs.filter (file_errors path ex)).map (fun pe => pe.1) ∧
    ∀ p fd, FS.get fs p = some (.file fd) → path <+: p → p ≠ path →
      should_exclude ex p.dropLast = false →
      FS.get (find_and_replace fs path s r ex).1 p =
        some (.file (process_file s r fd).1) := by
  refine ⟨?_, ?_, ?_⟩
  · simp only [find_and_replace]
    exact filter_map_fr_length path s r ex fs
  · simp only [find_and_replace]
    exact filterMap_fr_failed path s r ex fs
  · intro p fd hget h1 h2 h3
    rw [find_and_replace_get, hget]
    simp only [Option.map_some']
    have : (fr_entry path s r ex (p, .file fd)).1.2 =
        .file (process_file s r fd).1 := by
      simp [fr_entry, h1, h2, h3]
    rw [this]

/-- C5, witness: a tree with one erroring file; the non-erroring file is
still processed. -/
theorem c5_best_effort_witness :
    FS.get (find_and_replace
      [(["r", "good"], Entry.file ⟨['a'], false, true, false⟩),
       (["r", "bad"], Entry.file ⟨['a'], false, true, true⟩)]
      ["r"] ['a'] ['x'] []).1 ["r", "good"] =
      some (Entry.file (process_file ['a'] ['x']
        ⟨['a'], false, true, false⟩).1) :=
  (c5_counts_and_best_effort
    [(["r", "good"], Entry.file ⟨['a'], false, true, false⟩),
     (["r", "bad"], Entry.file ⟨['a'], false, true, true⟩)]
    ["r"] ['a'] ['x'] []).2.2 ["r", "good"] ⟨['a'], false, true, false⟩
    rfl (by decide) (by decide) rfl

/-- C4, witness for the amended theorem: with disjoint search `"aa"` and
replacement `"xy"`, a second run changes zero files. -/
theorem c4_rewrite_idempotent_witness :
    (['a', 'a'] : List Char) ≠ [] ∧ (['x', 'y'] : List Char) ≠ [] ∧
    (∀ c ∈ (['x', 'y'] : List Char), c ∉ (['a', 'a'] : List Char)) ∧
    (find_and_replace (find_and_replace
        [(["r", "f"], Entry.file ⟨['a', 'a', 'a'], false, true, false⟩)]
        ["r"] ['a', 'a'] ['x', 'y'] []).1
        ["r"] ['a', 'a'] ['x', 'y'] []).2.1 = 0 :=
  ⟨by decide, by decide, by decide,
    (c4_rewrite_idempotent_amended
      [(["r", "f"], Entry.file ⟨['a', 'a', 'a'], false, true, false⟩)]
      ["r"] ['a', 'a'] ['x', 'y'] []
      (by decide) (by decide) (by decide)).2.2⟩

/-! ## C9: cleanup_bundle -/

theorem FS.mem_of_get_eq_some (fs : FS) (p : FPath) (e : Entry)
    (h : FS.get fs p = some e) : (p, e) ∈ fs := by
  induction fs with
  | nil => exact absurd h (by simp [FS.get])
  | cons pe fs ih =>
    obtain ⟨q, e'⟩ := pe
    by_cases hp : q = p
    · subst hp
      have hq : FS.get ((q, e') :: fs) q = some e' := by
        simp [FS.get]
      rw [hq, Option.some.injEq] at h
      subst h
      exact List.mem_cons_self _ _
    · simp only [FS.get, if_neg hp] at h
      exact List.mem_cons_of_mem _ (ih h)

theorem FS.get_isSome_of_mem (fs : FS) (p : FPath) (e : Entry)
    (h : (p, e) ∈ fs) : (FS.get fs p).isSome := by
  induction fs with
  | nil => simp at h
  | cons pe fs ih =>
    rcases List.mem_cons.mp h with h | h
    · rw [← h]
      simp [FS.get]
    · by_cases hp : pe.1 = p
      · simp [FS.get, hp]
      · simp only [FS.get, if_neg hp]
        exact ih h

theorem FS.wellFormed_keepIf (fs : FS) (keep : FPath → Bool)
    (h : fs.wellFormed) : (fs.keepIf keep).wellFormed := by
  intro pe hpe qe hqe hpre hne
  exact h pe (List.mem_filter.mp hpe).1 qe (List.mem_filter.mp hqe).1 hpre hne

/-- The inner deletion loop of `cleanup_bundle` over a list of match
targets all present in (or with no descendants in) a well-formed
filesystem removes exactly the subtrees of the targets; an absent target
is caught (no exception) and the loop continues. -/
theorem fold_try_remove_fst :
    ∀ (L : List FPath) (fs : FS) (log : List String),
      fs.wellFormed →
      (∀ q ∈ L, (∃ e, (q, e) ∈ fs) ∨ (∀ pe ∈ fs, ¬ q <+: pe.1)) →
      (L.foldl (fun acc p =>
          let r := try_remove acc.1 p
          (r.1, acc.2 ++ r.2)) (fs, log)).1 =
        fs.keepIf (fun p => ¬ ∃ q ∈ L, q <+: p) := by
  intro L
  induction L with
  | nil =>
    intro fs log _ _
    simp [FS.keepIf]
  | cons q L ih =>
    intro fs log hwf hL
    have hremove_eq : ∀ e, FS.get fs q = some e → e ≠ Entry.dir →
        fs.remove q = fs.keepIf (fun p => ¬ q <+: p) := by
      intro e hget hne
      simp only [FS.remove, FS.keepIf]
      apply List.filter_congr
      intro pe hpe
      by_cases hq : q <+: pe.1
      · by_cases heq : pe.1 = q
        · simp [heq, hq]
        · have hdir := hwf pe hpe (q, e) (FS.mem_of_get_eq_some fs q e hget)
            hq (fun hh => heq hh.symm)
          exact absurd hdir hne
      · have heq : ¬ pe.1 = q := fun hh => hq (hh ▸ List.prefix_refl q)
        simp [heq, hq]
    have hstep : (try_remove fs q).1 = fs.keepIf (fun p => ¬ q <+: p) := by
      cases hget : FS.get fs q with
      | none =>
        have hnod : ∀ pe ∈ fs, ¬ q <+: pe.1 := by
          rcases hL q (List.mem_cons_self q L) with ⟨e, hmem⟩ | hnod
          · have := FS.get_isSome_of_mem fs q e hmem
            rw [hget] at this
            exact absurd this (by simp)
          · exact hnod
        simp only [try_remove, hget]
        symm
        simp only [FS.keepIf]
        rw [List.filter_eq_self]
        intro pe hpe
        simp [hnod pe hpe]
      | some e =>
        cases e with
        | dir =>
          simp only [try_remove, hget]
          rfl
        | file fd =>
          simp only [try_remove, hget]
          exact hremove_eq (Entry.file fd) hget (by simp)
        | plistFile pl =>
          simp only [try_remove, hget]
          exact hremove_eq (Entry.plistFile pl) hget (by simp)
    have hwf' : (fs.keepIf (fun p => ¬ q <+: p)).wellFormed :=
      FS.wellFormed_keepIf fs _ hwf
    have hL' : ∀ q' ∈ L,
        (∃ e, (q', e) ∈ fs.keepIf (fun p => ¬ q <+: p)) ∨
        (∀ pe ∈ fs.keepIf (fun p => ¬ q <+: p), ¬ q' <+: pe.1) := by
      intro q' hq'
      rcases hL q' (List.mem_cons_of_mem q hq') with ⟨e, hmem⟩ | hnod
      · by_cases hqq : q <+: q'
        · right
          intro pe hpe hpre
          have h1 := (List.mem_filter.mp hpe).2
          have h2 : q <+: pe.1 := hqq.trans hpre
          simp [h2] at h1
        · left
          exact ⟨e, List.mem_filter.mpr ⟨hmem, by simp [hqq]⟩⟩
      · right
        intro pe hpe
        exact hnod pe (List.mem_filter.mp hpe).1
    rw [List.foldl_cons]
    have hrec := ih (fs.keepIf (fun p => ¬ q <+: p))
      (log ++ (try_remove fs q).2) hwf' hL'
    have hgoal : (List.foldl (fun acc p =>
        let r := try_remove acc.1 p
        (r.1, acc.2 ++ r.2))
        ((try_remove fs q).1, log ++ (try_remove fs q).2) L).1 =
        fs.keepIf (fun p => ¬ ∃ q' ∈ q :: L, q' <+: p) := by
      rw [hstep, hrec]
      simp only [FS.keepIf, List.filter_filter]
      apply List.filter_congr
      intro pe _
      rw [← Bool.decide_and, decide_eq_decide, List.exists_mem_cons_iff]
      constructor
      · rintro ⟨hnL, hnq⟩ hor
        rcases hor with hq | ⟨q', hq', hpre⟩
        · exact hnq hq
        · exact hnL ⟨q', hq', hpre⟩
      · intro hC
        exact ⟨fun ⟨q', hq', hpre⟩ => hC (Or.inr ⟨q', hq', hpre⟩),
          fun hq => hC (Or.inl hq)⟩
    exact hgoal

/-- One pattern of `cleanup_bundle` removes exactly the subtrees of the
paths under the root that match the pattern. -/
theorem cleanup_pattern_fst (matchFn : String → FPath → Bool) (root : FPath)
    (fs : FS) (log : List String) (pattern : String) (hwf : fs.wellFormed) :
    (cleanup_pattern matchFn root (fs, log) pattern).1 =
      fs.keepIf (fun p => ¬ ∃ qe ∈ fs, root <+: qe.1 ∧ qe.1 ≠ root ∧
        matchFn pattern qe.1 = true ∧ qe.1 <+: p) := by
  have hpres : ∀ q ∈ rglob_matches matchFn fs root pattern,
      (∃ e, (q, e) ∈ fs) ∨ (∀ pe ∈ fs, ¬ q <+: pe.1) := by
    intro q hq
    left
    simp only [rglob_matches, List.mem_filterMap] at hq
    obtain ⟨pe, hpe, hif⟩ := hq
    by_cases hcond : root <+: pe.1 ∧ pe.1 ≠ root ∧ matchFn pattern pe.1 = true
    · rw [if_pos hcond, Option.some.injEq] at hif
      subst hif
      exact ⟨pe.2, hpe⟩
    · rw [if_neg hcond] at hif
      exact absurd hif (by simp)
  unfold cleanup_pattern
  rw [fold_try_remove_fst (rglob_matches matchFn fs root pattern) fs log hwf
    hpres]
  · simp only [FS.keepIf]
    apply List.filter_congr
    intro pe _
    rw [decide_eq_decide]
    apply not_congr
    simp only [rglob_matches, List.mem_filterMap]
    constructor
    · rintro ⟨q, ⟨qe, hqe, hif⟩, hpre⟩
      by_cases hcond : root <+: qe.1 ∧ qe.1 ≠ root ∧
          matchFn pattern qe.1 = true
      · rw [if_pos hcond, Option.some.injEq] at hif
        subst hif
        exact ⟨qe, hqe, hcond.1, hcond.2.1, hcond.2.2, hpre⟩
      · rw [if_neg hcond] at hif
        exact absurd hif (by simp)
    · rintro ⟨qe, hqe, h1, h2, h3, hpre⟩
      exact ⟨qe.1, ⟨qe, hqe, by rw [if_pos ⟨h1, h2, h3⟩]⟩, hpre⟩

/-- The whole pattern loop of `cleanup_bundle` removes exactly the
subtrees of the (initially present) matches of all the patterns. -/
theorem cleanup_fold_fst (matchFn : String → FPath → Bool) (root : FPath) :
    ∀ (pats : List String) (fs : FS) (log : List String), fs.wellFormed →
      (pats.foldl (cleanup_pattern matchFn root) (fs, log)).1 =
        fs.keepIf (fun p => ¬ ∃ m ∈ pats, ∃ qe ∈ fs, root <+: qe.1 ∧
          qe.1 ≠ root ∧ matchFn m qe.1 = true ∧ qe.1 <+: p) := by
  intro pats
  induction pats with
  | nil =>
    intro fs log _
    simp [FS.keepIf]
  | cons m pats ih =>
    intro fs log hwf
    rw [List.foldl_cons]
    have hfst := cleanup_pattern_fst matchFn root fs log m hwf
    have hwf1 : ((cleanup_pattern matchFn root (fs, log) m).1).wellFormed := by
      rw [hfst]
      exact FS.wellFormed_keepIf fs _ hwf
    have hrec := ih (cleanup_pattern matchFn root (fs, log) m).1
      (cleanup_pattern matchFn root (fs, log) m).2 hwf1
    rw [show cleanup_pattern matchFn root (fs, log) m =
      ((cleanup_pattern matchFn root (fs, log) m).1,
       (cleanup_pattern matchFn root (fs, log) m).2) from rfl, hrec, hfst]
    simp only [FS.keepIf, List.filter_filter]
    apply List.filter_congr
    intro pe _
    rw [← Bool.decide_and, decide_eq_decide, List.exists_mem_cons_iff]
    constructor
    · rintro ⟨hB, hA⟩ hor
      rcases hor with ⟨qe, hqe, hc1, hc2, hc3, hpre⟩ |
        ⟨m'', hm'', qe, hqe, hc1, hc2, hc3, hpre⟩
      · exact hA ⟨qe, hqe, hc1, hc2, hc3, hpre⟩
      · by_cases hsurv : ∃ q₀e ∈ fs, root <+: q₀e.1 ∧ q₀e.1 ≠ root ∧
            matchFn m q₀e.1 = true ∧ q₀e.1 <+: qe.1
        · obtain ⟨q₀e, hq₀, hh1, hh2, hh3, hh4⟩ := hsurv
          exact hA ⟨q₀e, hq₀, hh1, hh2, hh3, hh4.trans hpre⟩
        · have hqe' : qe ∈ List.filter (fun pe => decide ¬ ∃ q₀e ∈ fs,
              root <+: q₀e.1 ∧ q₀e.1 ≠ root ∧ matchFn m q₀e.1 = true ∧
              q₀e.1 <+: pe.1) fs := by
            refine List.mem_filter.mpr ⟨hqe, ?_⟩
            simpa using hsurv
          exact hB ⟨m'', hm'', qe, hqe', hc1, hc2, hc3, hpre⟩
    · intro hC
      refine ⟨?_, ?_⟩
      · rintro ⟨m', hm', qe, hqe', hc1, hc2, hc3, hpre⟩
        exact hC (Or.inr ⟨m', hm', qe, (List.mem_filter.mp hqe').1,
          hc1, hc2, hc3, hpre⟩)
      · rintro ⟨qe, hqe, hc1, hc2, hc3, hpre⟩
        exact hC (Or.inl ⟨qe, hqe, hc1, hc2, hc3, hpre⟩)

/-- C9, counterexample: a file inside a matched `__pycache__` directory
matches none of the patterns itself, yet `cleanup_bundle` deletes it
(directories are removed recursively), refuting "leaves every
non-matching path unchanged" as stated. -/
theorem c9_descendant_counterexample :
    (∀ m ∈ MacAppBuilder.cleanup_patterns
        ⟨[("APP_NAME", CVal.str "Demo"), ("OUTPUT_FOLDER", CVal.str "/out")],
          "/h", 2026⟩,
      (fun (pat : String) (p : FPath) => p.getLastD "" == pat) m
        ["", "out", "Demo.app", "Contents", "Resources", "__pycache__",
          "x.py"] = false) ∧
    FS.get [(["", "out", "Demo.app", "Contents", "Resources"], Entry.dir),
        (["", "out", "Demo.app", "Contents", "Resources", "__pycache__"],
          Entry.dir),
        (["", "out", "Demo.app", "Contents", "Resources", "__pycache__",
          "x.py"], Entry.file ⟨[], false, true, false⟩)]
      ["", "out", "Demo.app", "Contents", "Resources", "__pycache__",
        "x.py"] = some (Entry.file ⟨[], false, true, false⟩) ∧
    FS.get (MacAppBuilder.cleanup_bundle
      ⟨[("APP_NAME", CVal.str "Demo"), ("OUTPUT_FOLDER", CVal.str "/out")],
        "/h", 2026⟩
      (fun (pat : String) (p : FPath) => p.getLastD "" == pat)
      [(["", "out", "Demo.app", "Contents", "Resources"], Entry.dir),
       (["", "out", "Demo.app", "Contents", "Resources", "__pycache__"],
         Entry.dir),
       (["", "out", "Demo.app", "Contents", "Resources", "__pycache__",
         "x.py"], Entry.file ⟨[], false, true, false⟩)]).1
      ["", "out", "Demo.app", "Contents", "Resources", "__pycache__",
        "x.py"] = none := by
  refine ⟨by decide, by decide, ?_⟩
  decide

/-- C9, amended: `cleanup_bundle` deletes every path under the resource
directory that matches a supplied pattern together with everything below
it (matched directories are removed recursively); a path neither matching
a pattern nor lying below a match is left unchanged; and deletion of an
already-absent target is caught with a logged warning instead of an
exception, so the remaining deletions and patterns still run (the closed
form holds regardless of such events). -/
theorem c9_cleanup_closed_form (b : MacAppBuilder)
    (matchFn : String → FPath → Bool) (fs : FS) (hwf : fs.wellFormed) :
    (b.cleanup_bundle matchFn fs).1 =
      fs.keepIf (fun p => ¬ ∃ m ∈ b.cleanup_patterns, ∃ qe ∈ fs,
        b.resource_dir <+: qe.1 ∧ qe.1 ≠ b.resource_dir ∧
        matchFn m qe.1 = true ∧ qe.1 <+: p) ∧
    ∀ (fs' : FS) (q : FPath), FS.get fs' q = none →
      try_remove fs' q = (fs', ["Could not remove " ++ joinPath q]) := by
  constructor
  · exact cleanup_fold_fst matchFn b.resource_dir b.cleanup_patterns fs []
      hwf
  · intro fs' q h
    simp [try_remove, h]

/-- C9, witness for the amended theorem, at a concrete well-formed tree
with a matched directory containing a non-matching file. -/
theorem c9_cleanup_closed_form_witness :
    FS.wellFormed [(["", "out", "Demo.app", "Contents", "Resources"],
        Entry.dir),
      (["", "out", "Demo.app", "Contents", "Resources", "__pycache__"],
        Entry.dir),
      (["", "out", "Demo.app", "Contents", "Resources", "__pycache__",
        "x.py"], Entry.file ⟨[], false, true, false⟩)] ∧
    (MacAppBuilder.cleanup_bundle
      ⟨[("APP_NAME", CVal.str "Demo"), ("OUTPUT_FOLDER", CVal.str "/out")],
        "/h", 2026⟩
      (fun (pat : String) (p : FPath) => p.getLastD "" == pat)
      [(["", "out", "Demo.app", "Contents", "Resources"], Entry.dir),
       (["", "out", "Demo.app", "Contents", "Resources", "__pycache__"],
         Entry.dir),
       (["", "out", "Demo.app", "Contents", "Resources", "__pycache__",
         "x.py"], Entry.file ⟨[], false, true, false⟩)]).1 =
      FS.keepIf [(["", "out", "Demo.app", "Contents", "Resources"],
          Entry.dir),
        (["", "out", "Demo.app", "Contents", "Resources", "__pycache__"],
          Entry.dir),
        (["", "out", "Demo.app", "Contents", "Resources", "__pycache__",
          "x.py"], Entry.file ⟨[], false, true, false⟩)]
        (fun p => ¬ ∃ m ∈ MacAppBuilder.cleanup_patterns
            ⟨[("APP_NAME", CVal.str "Demo"),
              ("OUTPUT_FOLDER", CVal.str "/out")], "/h", 2026⟩,
          ∃ qe ∈ [((["", "out", "Demo.app", "Contents", "Resources"] : FPath),
              Entry.dir),
            (["", "out", "Demo.app", "Contents", "Resources", "__pycache__"],
              Entry.dir),
            (["", "out", "Demo.app", "Contents", "Resources", "__pycache__",
              "x.py"], Entry.file ⟨[], false, true, false⟩)],
            MacAppBuilder.resource_dir
              ⟨[("APP_NAME", CVal.str "Demo"),
                ("OUTPUT_FOLDER", CVal.str "/out")], "/h", 2026⟩ <+: qe.1 ∧
            qe.1 ≠ MacAppBuilder.resource_dir
              ⟨[("APP_NAME", CVal.str "Demo"),
                ("OUTPUT_FOLDER", CVal.str "/out")], "/h", 2026⟩ ∧
            (fun (pat : String) (p : FPath) => p.getLastD "" == pat) m qe.1
              = true ∧ qe.1 <+: p) :=
  ⟨by
    unfold FS.wellFormed
    decide,
    (c9_cleanup_closed_form
      ⟨[("APP_NAME", CVal.str "Demo"), ("OUTPUT_FOLDER", CVal.str "/out")],
        "/h", 2026⟩
      (fun (pat : String) (p : FPath) => p.getLastD "" == pat)
      [(["", "out", "Demo.app", "Contents", "Resources"], Entry.dir),
       (["", "out", "Demo.app", "Contents", "Resources", "__pycache__"],
         Entry.dir),
       (["", "out", "Demo.app", "Contents", "Resources", "__pycache__",
         "x.py"], Entry.file ⟨[], false, true, false⟩)]
      (by
        unfold FS.wellFormed
        decide)).1⟩

/-! ## C8: the end-to-end Demo scenario -/

theorem fr_entry_not_under (path : FPath) (s r : List Char)
    (ex : List String) (p : FPath) (e : Entry) (h : ¬ path <+: p) :
    (fr_entry path s r ex (p, e)).1.2 = e := by
  cases e with
  | dir => rfl
  | plistFile pl => rfl
  | file fd =>
    have hcond : ¬ (path <+: p ∧ p ≠ path ∧
        should_exclude ex p.dropLast = false) := fun hc => h hc.1
    simp only [fr_entry, if_neg hcond]

/-- `fix_paths` never touches an entry outside the resource directory. -/
theorem fix_paths_get_of_not_under (b : MacAppBuilder) (fs : FS) (p : FPath)
    (h : ¬ b.resource_dir <+: p) :
    FS.get (b.fix_paths fs) p = FS.get fs p := by
  unfold MacAppBuilder.fix_paths
  rw [find_and_replace_get]
  cases hfs : FS.get fs p with
  | none => rfl
  | some e =>
    simp only [Option.map_some']
    rw [fr_entry_not_under _ _ _ _ _ _ h]

theorem try_remove_get_of_not_prefix (fs : FS) (q p : FPath)
    (h : ¬ q <+: p) : FS.get (try_remove fs q).1 p = FS.get fs p := by
  unfold try_remove
  cases hget : FS.get fs q with
  | none => rfl
  | some e =>
    cases e with
    | dir =>
      simp only []
      rw [FS.get_removeTree, if_neg h]
    | file fd =>
      simp only []
      exact FS.get_remove_ne fs q p (fun hh => h (hh ▸ List.prefix_refl q))
    | plistFile pl =>
      simp only []
      exact FS.get_remove_ne fs q p (fun hh => h (hh ▸ List.prefix_refl q))

theorem fold_try_remove_get (L : List FPath) :
    ∀ (fs : FS) (log : List String) (p : FPath), (∀ q ∈ L, ¬ q <+: p) →
      FS.get (L.foldl (fun acc q =>
        let r := try_remove acc.1 q
        (r.1, acc.2 ++ r.2)) (fs, log)).1 p = FS.get fs p := by
  induction L with
  | nil =>
    intro fs log p _
    rfl
  | cons q L ih =>
    intro fs log p hall
    rw [List.foldl_cons]
    have hstep := try_remove_get_of_not_prefix fs q p
      (hall q (List.mem_cons_self q L))
    have hrec := ih (try_remove fs q).1 (log ++ (try_remove fs q).2) p
      (fun q' hq' => hall q' (List.mem_cons_of_mem q hq'))
    calc FS.get (List.foldl _ ((try_remove fs q).1,
          log ++ (try_remove fs q).2) L).1 p
        = FS.get (try_remove fs q).1 p := hrec
      _ = FS.get fs p := hstep

theorem cleanup_pattern_get (matchFn : String → FPath → Bool) (root : FPath)
    (st : FS × List String) (pattern : String) (p : FPath)
    (h : ¬ root <+: p) :
    FS.get (cleanup_pattern matchFn root st pattern).1 p =
      FS.get st.1 p := by
  unfold cleanup_pattern
  obtain ⟨fs, log⟩ := st
  apply fold_try_remove_get
  intro q hq hpre
  simp only [rglob_matches, List.mem_filterMap] at hq
  obtain ⟨pe, hpe, hif⟩ := hq
  by_cases hcond : root <+: pe.1 ∧ pe.1 ≠ root ∧ matchFn pattern pe.1 = true
  · rw [if_pos hcond, Option.some.injEq] at hif
    subst hif
    exact h (hcond.1.trans hpre)
  · rw [if_neg hcond] at hif
    exact absurd hif (by simp)

theorem cleanup_fold_get (matchFn : String → FPath → Bool) (root : FPath)
    (pats : List String) : ∀ (fs : FS) (log : List String) (p : FPath),
    ¬ root <+: p →
    FS.get (pats.foldl (cleanup_pattern matchFn root) (fs, log)).1 p =
      FS.get fs p := by
  induction pats with
  | nil =>
    intro fs log p _
    rfl
  | cons m pats ih =>
    intro fs log p h
    rw [List.foldl_cons]
    have h1 := cleanup_pattern_get matchFn root (fs, log) m p h
    have hpair : cleanup_pattern matchFn root (fs, log) m =
        ((cleanup_pattern matchFn root (fs, log) m).1,
         (cleanup_pattern matchFn root (fs, log) m).2) := rfl
    rw [hpair]
    rw [ih (cleanup_pattern matchFn root (fs, log) m).1 _ p h]
    exact h1

/-- `cleanup_bundle` never touches an entry outside the resource
directory. -/
theorem cleanup_get_of_not_under (b : MacAppBuilder)
    (matchFn : String → FPath → Bool) (fs : FS) (p : FPath)
    (h : ¬ b.resource_dir <+: p) :
    FS.get (b.cleanup_bundle matchFn fs).1 p = FS.get fs p := by
  unfold MacAppBuilder.cleanup_bundle
  exact cleanup_fold_get matchFn b.resource_dir b.cleanup_patterns fs [] p h

/-- After `create_launcher_script`, the launcher exists with the formatted
content and the executable bit set. -/
theorem create_launcher_script_get_self (b : MacAppBuilder) (fs : FS) :
    FS.get (b.create_launcher_script fs) b.app_script =
      some (.file ⟨(launcher_content (b.config.getStr "ENTRY_SCRIPT")).toList,
        true, true, false⟩) := by
  unfold MacAppBuilder.create_launcher_script FS.chmod_exec
  simp only [FS.get_set_self]

theorem create_launcher_script_get_ne (b : MacAppBuilder) (fs : FS)
    (q : FPath) (h : q ≠ b.app_script) :
    FS.get (b.create_launcher_script fs) q = FS.get fs q := by
  unfold MacAppBuilder.create_launcher_script FS.chmod_exec
  simp only [FS.get_set_self]
  rw [FS.get_set_ne _ _ _ _ h, FS.get_set_ne _ _ _ _ h]

/-- `Contents/Resources` is not a prefix of `Contents/MacOS/<name>`. -/
theorem resource_dir_not_prefix_app_script (b : MacAppBuilder) :
    ¬ b.resource_dir <+: b.app_script := by
  intro h
  unfold MacAppBuilder.resource_dir MacAppBuilder.app_script
    MacAppBuilder.macos_dir at h
  rw [List.append_assoc] at h
  have h2 := (List.prefix_append_right_inj b.app_file).mp h
  simp [List.cons_prefix_cons] at h2

/-- `Contents/Resources` is not a prefix of `Contents/Info.plist`. -/
theorem resource_dir_not_prefix_plist (b : MacAppBuilder) :
    ¬ b.resource_dir <+: b.app_file ++ ["Contents", "Info.plist"] := by
  intro h
  unfold MacAppBuilder.resource_dir at h
  have h2 := (List.prefix_append_right_inj b.app_file).mp h
  simp [List.cons_prefix_cons] at h2

/-- The metadata file and the launcher live at different paths. -/
theorem plist_path_ne_app_script (b : MacAppBuilder) :
    b.app_file ++ ["Contents", "Info.plist"] ≠ b.app_script := by
  intro h
  unfold MacAppBuilder.app_script MacAppBuilder.macos_dir at h
  rw [List.append_assoc] at h
  have h2 := (List.append_right_inj b.app_file).mp h
  simp at h2

/-- The plist entries the C8 scenario checks, under a configuration that
supplies no extension blocks. -/
theorem info_plist_name_version (b : MacAppBuilder)
    (hname : b.config.getStr "APP_NAME" = "Demo")
    (hver : b.config.getStr "VERSION" = "1.0")
    (hsup : b.config.find? "APP_SUPPORTED_FILES" = none)
    (hadd : b.config.find? "PLIST_ADDITIONS" = none) :
    plistFind? b.info_plist "CFBundleName" = some (.str "Demo") ∧
    plistFind? b.info_plist "CFBundleShortVersionString" =
      some (.str "1.0") := by
  by_cases hik : b.config.hasKey "ICON_PATH"
  · constructor <;>
      simp [MacAppBuilder.info_plist, hsup, hadd, hik, hname, hver,
        plistSet, plistFind?]
  · constructor <;>
      simp [MacAppBuilder.info_plist, hsup, hadd, hik, hname, hver,
        plistSet, plistFind?]

/-- The stages after `create_plist`/`create_launcher_script` preserve the
launcher and the metadata file. -/
theorem pipeline_gets (b : MacAppBuilder) (matchFn : String → FPath → Bool)
    (so : SignOutcome) (fs : FS) :
    FS.get (b.pipeline matchFn so fs) b.app_script =
      some (.file ⟨(launcher_content (b.config.getStr "ENTRY_SCRIPT")).toList,
        true, true, false⟩) ∧
    FS.get (b.pipeline matchFn so fs) (b.app_file ++ ["Contents",
      "Info.plist"]) = some (.plistFile b.info_plist) := by
  unfold MacAppBuilder.pipeline
  constructor
  · rw [cleanup_get_of_not_under b matchFn _ _
      (resource_dir_not_prefix_app_script b)]
    rw [fix_paths_get_of_not_under b _ _
      (resource_dir_not_prefix_app_script b)]
    exact create_launcher_script_get_self b _
  · rw [cleanup_get_of_not_under b matchFn _ _
      (resource_dir_not_prefix_plist b)]
    rw [fix_paths_get_of_not_under b _ _
      (resource_dir_not_prefix_plist b)]
    rw [create_launcher_script_get_ne b _ _ (plist_path_ne_app_script b)]
    unfold MacAppBuilder.create_plist
    exact FS.get_set_self _ _ _

/-- C8: for a configuration naming the app "Demo", version "1.0" and entry
script "demo" (and supplying no plist extension blocks), a build with
clear enabled succeeds (returns True); afterwards
`Demo.app/Contents/MacOS/Demo` holds the launcher with the executable bit
set, its content names `bin/demo` in the final `exec` line, and
`Contents/Info.plist` deserialises with CFBundleName "Demo" and
CFBundleShortVersionString "1.0". -/
theorem c8_end_to_end (b : MacAppBuilder) (matchFn : String → FPath → Bool)
    (so : SignOutcome) (fs : FS)
    (hname : b.config.getStr "APP_NAME" = "Demo")
    (hver : b.config.getStr "VERSION" = "1.0")
    (hentry : b.config.getStr "ENTRY_SCRIPT" = "demo")
    (hsup : b.config.find? "APP_SUPPORTED_FILES" = none)
    (hadd : b.config.find? "PLIST_ADDITIONS" = none) :
    (b.create_app matchFn so fs true).2.1 = true ∧
    FS.get (b.create_app matchFn so fs true).1 b.app_script =
      some (.file ⟨(launcher_content "demo").toList, true, true, false⟩) ∧
    ("bin/demo".toList <:+: (launcher_content "demo").toList) ∧
    FS.get (b.create_app matchFn so fs true).1
      (b.app_file ++ ["Contents", "Info.plist"]) =
      some (.plistFile b.info_plist) ∧
    plistFind? b.info_plist "CFBundleName" = some (.str "Demo") ∧
    plistFind? b.info_plist "CFBundleShortVersionString" =
      some (.str "1.0") := by
  have hpl := info_plist_name_version b hname hver hsup hadd
  have hmain : ∀ fs₀ : FS,
      FS.get (b.pipeline matchFn so fs₀) b.app_script =
        some (.file ⟨(launcher_content "demo").toList, true, true, false⟩) ∧
      FS.get (b.pipeline matchFn so fs₀)
        (b.app_file ++ ["Contents", "Info.plist"]) =
        some (.plistFile b.info_plist) := by
    intro fs₀
    have h := pipeline_gets b matchFn so fs₀
    rw [hentry] at h
    exact h
  have hinf : ("bin/demo".toList <:+: (launcher_content "demo").toList) := by
    set_option maxRecDepth 16384 in decide
  unfold MacAppBuilder.create_app
  by_cases hex : (FS.get fs b.app_file).isSome
  · rw [if_pos hex, if_neg (show ¬ (true = false) by simp)]
    exact ⟨rfl, (hmain _).1, hinf, (hmain _).2, hpl.1, hpl.2⟩
  · rw [if_neg hex]
    exact ⟨rfl, (hmain _).1, hinf, (hmain _).2, hpl.1, hpl.2⟩

/-- C8, witness: a complete concrete Demo configuration built on an empty
filesystem. -/
theorem c8_end_to_end_witness :
    (MacAppBuilder.create_app
      ⟨[("APP_NAME", CVal.str "Demo"), ("OUTPUT_FOLDER", CVal.str "/out"),
        ("VERSION", CVal.str "1.0"), ("AUTHOR", CVal.str "A"),
        ("CONDA_ENV_PATH", CVal.str "/envs/demo"),
        ("ENTRY_SCRIPT", CVal.str "demo"),
        ("IDENTIFIER", CVal.str "org.demo")], "/h", 2026⟩
      (fun _ _ => false) SignOutcome.success [] true).2.1 = true ∧
    FS.get (MacAppBuilder.create_app
      ⟨[("APP_NAME", CVal.str "Demo"), ("OUTPUT_FOLDER", CVal.str "/out"),
        ("VERSION", CVal.str "1.0"), ("AUTHOR", CVal.str "A"),
        ("CONDA_ENV_PATH", CVal.str "/envs/demo"),
        ("ENTRY_SCRIPT", CVal.str "demo"),
        ("IDENTIFIER", CVal.str "org.demo")], "/h", 2026⟩
      (fun _ _ => false) SignOutcome.success [] true).1
      (MacAppBuilder.app_script
        ⟨[("APP_NAME", CVal.str "Demo"), ("OUTPUT_FOLDER", CVal.str "/out"),
          ("VERSION", CVal.str "1.0"), ("AUTHOR", CVal.str "A"),
          ("CONDA_ENV_PATH", CVal.str "/envs/demo"),
          ("ENTRY_SCRIPT", CVal.str "demo"),
          ("IDENTIFIER", CVal.str "org.demo")], "/h", 2026⟩) =
      some (.file ⟨(launcher_content "demo").toList, true, true, false⟩) ∧
    plistFind? (MacAppBuilder.info_plist
      ⟨[("APP_NAME", CVal.str "Demo"), ("OUTPUT_FOLDER", CVal.str "/out"),
        ("VERSION", CVal.str "1.0"), ("AUTHOR", CVal.str "A"),
        ("CONDA_ENV_PATH", CVal.str "/envs/demo"),
        ("ENTRY_SCRIPT", CVal.str "demo"),
        ("IDENTIFIER", CVal.str "org.demo")], "/h", 2026⟩)
      "CFBundleName" = some (.str "Demo") := by
  have h := c8_end_to_end
    ⟨[("APP_NAME", CVal.str "Demo"), ("OUTPUT_FOLDER", CVal.str "/out"),
      ("VERSION", CVal.str "1.0"), ("AUTHOR", CVal.str "A"),
      ("CONDA_ENV_PATH", CVal.str "/envs/demo"),
      ("ENTRY_SCRIPT", CVal.str "demo"),
      ("IDENTIFIER", CVal.str "org.demo")], "/h", 2026⟩
    (fun _ _ => false) SignOutcome.success [] rfl rfl rfl rfl rfl
  exact ⟨h.1, h.2.1, h.2.2.2.2.1⟩

end CondaApp
